import Mathlib

/-!
Verification development for the LP-algebra seed module (lpa_seed.py).

The module implements Lam and Pylyavskyy's Laurent phenomenon algebra seeds:
construction with LP1/LP2 invariant checks, the mutation transform, the
exchange Laurent polynomials, seed equivalence, and BFS/DFS exploration of
the mutation class.

The source delegates all exact arithmetic over the coefficient domain
(polynomial rings over ZZ or QQ, their fraction fields, gcd, exact division,
factorization) to the external Sage algebra engine.  Here that engine is
realised by an executable layer: dense recursive multivariate polynomials
over the two supported base rings, with exact division, a content /
primitive-part gcd, and canonically reduced fractions.  The seed operations
themselves are translated from lpa_seed.py on top of that layer.
-/

set_option autoImplicit false

namespace Lpa

/-- Operations the seed module requires of a coefficient domain (a unique
factorization domain in the source: ZZ or QQ).  divOpt is exact division
(none when the divisor does not divide), gcd is the normalized gcd,
normUnit is the unit u such that x divided by u is in canonical form,
sizeB is a coarse size bound used as fuel for the divisibility-power loop. -/
structure UfdOps (R : Type) where
  zero : R
  one : R
  add : R → R → R
  neg : R → R
  mul : R → R → R
  divOpt : R → R → Option R
  gcd : R → R → R
  normUnit : R → R
  isUnit : R → Bool
  sizeB : R → Nat

/-- The integer base ring ZZ. -/
def intOps : UfdOps Int where
  zero := 0
  one := 1
  add := (· + ·)
  neg := (- ·)
  mul := (· * ·)
  divOpt := fun a b =>
    if b = 0 then (if a = 0 then some 0 else none)
    else if a % b = 0 then some (a / b) else none
  gcd := fun a b => ((Int.gcd a b : Nat) : Int)
  normUnit := fun a => if a < 0 then -1 else 1
  isUnit := fun a => a = 1 || a = -1
  sizeB := Int.natAbs

/-- The rational base ring QQ (a field: every nonzero element is a unit,
gcds are trivial). -/
def ratOps : UfdOps Rat where
  zero := 0
  one := 1
  add := (· + ·)
  neg := (- ·)
  mul := (· * ·)
  divOpt := fun a b =>
    if b = 0 then (if a = 0 then some 0 else none) else some (a / b)
  gcd := fun a b => if a = 0 && b = 0 then 0 else 1
  normUnit := fun a => if a = 0 then 1 else a
  isUnit := fun a => a ≠ 0
  sizeB := fun _ => 1

section PolyLayer

variable {C : Type} [DecidableEq C] (cops : UfdOps C)

/-- Dense univariate polynomials over C: index k holds the coefficient of
X^k; the representation is kept free of trailing zeros. -/
def consT (c : C) (t : List C) : List C :=
  if t = [] && c = cops.zero then [] else c :: t

/-- Remove trailing (high-degree) zero coefficients. -/
def trimP (f : List C) : List C :=
  f.foldr (consT cops) []

def addP : List C → List C → List C
  | [], g => g
  | f, [] => f
  | a :: f, b :: g => consT cops (cops.add a b) (addP f g)

def negP (f : List C) : List C :=
  trimP cops (f.map cops.neg)

def subP (f g : List C) : List C :=
  addP cops f (negP cops g)

def scalP (c : C) (f : List C) : List C :=
  trimP cops (f.map (cops.mul c))

def shiftP (k : Nat) (f : List C) : List C :=
  if f = [] then [] else List.replicate k cops.zero ++ f

def mulP : List C → List C → List C
  | [], _ => []
  | a :: f, g => addP cops (scalP cops a g) (shiftP cops 1 (mulP f g))

def powP (f : List C) : Nat → List C
  | 0 => [cops.one]
  | k + 1 => mulP cops f (powP f k)

def leadP (f : List C) : C :=
  f.getLastD cops.zero

/-- Exact-division worker: subtract quotient terms while the leading
coefficient divides; fuel bounds the number of degree reductions. -/
def divGo (g : List C) : Nat → List C → List C → Option (List C)
  | 0, _, _ => none
  | fuel + 1, r, q =>
    if r = [] then some q
    else if r.length < g.length then none
    else
      match cops.divOpt (leadP cops r) (leadP cops g) with
      | none => none
      | some c =>
        let term := shiftP cops (r.length - g.length) [c]
        divGo g fuel (subP cops r (mulP cops term g)) (addP cops q term)

/-- Exact division of polynomials: some quotient when the second argument
divides the first, none otherwise (this is the r = 0 test of the source's
quo_rem calls). -/
def divOptP (f g : List C) : Option (List C) :=
  if g = [] then (if f = [] then some [] else none)
  else divGo cops g (f.length + 1) f []

/-- Does d divide f? -/
def dividesP (d f : List C) : Bool :=
  (divOptP cops f d).isSome

def contentP (f : List C) : C :=
  f.foldl cops.gcd cops.zero

def primPartP (f : List C) : List C :=
  let c := contentP cops f
  trimP cops (f.map (fun x => (cops.divOpt x c).getD x))

/-- Pseudo-remainder of r by g (g nonzero), iterated until the degree
drops below that of g. -/
def premP (g : List C) : Nat → List C → List C
  | 0, r => r
  | fuel + 1, r =>
    if r = [] then []
    else if r.length < g.length then r
    else
      premP g fuel
        (subP cops (scalP cops (leadP cops g) r)
          (shiftP cops (r.length - g.length) (scalP cops (leadP cops r) g)))

/-- Primitive polynomial remainder sequence. -/
def gcdPrimP : Nat → List C → List C → List C
  | 0, a, _ => a
  | fuel + 1, a, b =>
    if b = [] then a
    else if a.length < b.length then gcdPrimP fuel b a
    else gcdPrimP fuel b (primPartP cops (premP cops b (a.length + 1) a))

def normUnitP (f : List C) : List C :=
  [cops.normUnit (leadP cops f)]

def normalizeP (f : List C) : List C :=
  (divOptP cops f (normUnitP cops f)).getD f

/-- Normalized polynomial gcd over the UFD C, split into the gcd of the
contents and a primitive-remainder-sequence gcd of the primitive parts. -/
def gcdP (f g : List C) : List C :=
  if f = [] then normalizeP cops g
  else if g = [] then normalizeP cops f
  else
    let c := cops.gcd (contentP cops f) (contentP cops g)
    let a := primPartP cops f
    let b := primPartP cops g
    let h := gcdPrimP cops (a.length + b.length + 2) a b
    normalizeP cops (scalP cops c (primPartP cops h))

def isUnitP (f : List C) : Bool :=
  f.length = 1 && cops.isUnit (f.headD cops.zero)

def sizeBP (f : List C) : Nat :=
  f.foldl (fun n c => n + cops.sizeB c + 1) 0

/-- The polynomial ring over C, packaged with the same engine operations. -/
def polyOps : UfdOps (List C) where
  zero := []
  one := [cops.one]
  add := addP cops
  neg := negP cops
  mul := mulP cops
  divOpt := divOptP cops
  gcd := gcdP cops
  normUnit := normUnitP cops
  isUnit := isUnitP cops
  sizeB := sizeBP cops

end PolyLayer

/-- Multivariate polynomials in n variables over R, as iterated dense
univariate polynomials; variable 0 is the outermost one. -/
def MPoly (R : Type) : Nat → Type
  | 0 => R
  | n + 1 => List (MPoly R n)

instance instDecEqMPoly (R : Type) [DecidableEq R] : (n : Nat) → DecidableEq (MPoly R n)
  | 0 => inferInstanceAs (DecidableEq R)
  | n + 1 =>
    letI := instDecEqMPoly R n
    inferInstanceAs (DecidableEq (List (MPoly R n)))

section MLayer

variable {R : Type} [DecidableEq R]

/-- The engine operations on MPoly R n, built by iterating polyOps. -/
def mOps (ops : UfdOps R) : (n : Nat) → UfdOps (MPoly R n)
  | 0 => ops
  | n + 1 =>
    letI := instDecEqMPoly R n
    polyOps (mOps ops n)

/-- Constant polynomial. -/
def constM (ops : UfdOps R) : (n : Nat) → R → MPoly R n
  | 0, c => c
  | n + 1, c => if c = ops.zero then [] else [constM ops n c]

/-- The k-th generator as a polynomial (junk zero when k is out of range). -/
def varM (ops : UfdOps R) : (n : Nat) → Nat → MPoly R n
  | 0, _ => ops.zero
  | n + 1, 0 => [(mOps ops n).zero, (mOps ops n).one]
  | n + 1, k + 1 => [varM ops n k]

/-- Does variable k occur (with positive degree) in p?  This is the
variables() membership test of the source. -/
def hasVarM : (n : Nat) → MPoly R n → Nat → Bool
  | 0, _, _ => false
  | _ + 1, p, 0 => decide (2 ≤ p.length)
  | n + 1, p, k + 1 => p.any (fun c => hasVarM n c k)

/-- Substitute 0 for variable k in p. -/
def substZeroM (ops : UfdOps R) : (n : Nat) → MPoly R n → Nat → MPoly R n
  | 0, c, _ => c
  | n + 1, p, 0 =>
    let c := p.headD (mOps ops n).zero
    if c = (mOps ops n).zero then [] else [c]
  | n + 1, p, k + 1 =>
    letI := instDecEqMPoly R n
    trimP (mOps ops n) (p.map (fun c => substZeroM ops n c k))

def totalDegM : (n : Nat) → MPoly R n → Nat
  | 0, _ => 0
  | n + 1, p => p.enum.foldl (fun m ic => max m (ic.1 + totalDegM n ic.2)) 0

/-- Ring operations of an evaluation target. -/
structure RingOps (A : Type) where
  zero : A
  add : A → A → A
  mul : A → A → A

/-- Evaluate p at the assignment σ of its variables (Horner form); φ embeds
the base-ring coefficients into the target. -/
def evalM {A : Type} (rops : RingOps A) (φ : R → A) :
    (n : Nat) → MPoly R n → (Nat → A) → A
  | 0, c, _ => φ c
  | n + 1, p, σ =>
    p.foldr
      (fun c acc =>
        rops.add (evalM rops φ n c (fun i => σ (i + 1))) (rops.mul (σ 0) acc))
      rops.zero

end MLayer

section FracLayer

variable {R : Type} [DecidableEq R]

/-- Elements of the ambient field Frac(A[names, coefficients]), kept in
canonical reduced form (numerator and denominator coprime, denominator
normalized by its unit part), which is how the Sage fraction field stores
them; structural equality then coincides with equality in the field. -/
structure Frac (R : Type) (m : Nat) where
  num : MPoly R m
  den : MPoly R m

instance instDecEqFrac (R : Type) [DecidableEq R] (m : Nat) : DecidableEq (Frac R m) :=
  fun a b =>
    letI := instDecEqMPoly R m
    if h : a.num = b.num ∧ a.den = b.den then
      isTrue (by cases a; cases b; simp_all)
    else
      isFalse (by cases a; cases b; simp_all)

/-- Build the reduced, unit-normalized fraction n/d. -/
def mkFrac (ops : UfdOps R) (m : Nat) (n d : MPoly R m) : Frac R m :=
  let mops := mOps ops m
  if d = mops.zero then ⟨n, mops.zero⟩
  else if n = mops.zero then ⟨mops.zero, mops.one⟩
  else
    let g := mops.gcd n d
    let n1 := (mops.divOpt n g).getD n
    let d1 := (mops.divOpt d g).getD d
    let u := mops.normUnit d1
    ⟨(mops.divOpt n1 u).getD n1, (mops.divOpt d1 u).getD d1⟩

def fracOfPoly (ops : UfdOps R) (m : Nat) (p : MPoly R m) : Frac R m :=
  ⟨p, (mOps ops m).one⟩

def fZero (ops : UfdOps R) (m : Nat) : Frac R m :=
  fracOfPoly ops m (mOps ops m).zero

def fVar (ops : UfdOps R) (m : Nat) (k : Nat) : Frac R m :=
  fracOfPoly ops m (varM ops m k)

def fAdd (ops : UfdOps R) (m : Nat) (a b : Frac R m) : Frac R m :=
  let mops := mOps ops m
  mkFrac ops m (mops.add (mops.mul a.num b.den) (mops.mul b.num a.den))
    (mops.mul a.den b.den)

def fMul (ops : UfdOps R) (m : Nat) (a b : Frac R m) : Frac R m :=
  let mops := mOps ops m
  mkFrac ops m (mops.mul a.num b.num) (mops.mul a.den b.den)

def fDiv (ops : UfdOps R) (m : Nat) (a b : Frac R m) : Frac R m :=
  let mops := mOps ops m
  mkFrac ops m (mops.mul a.num b.den) (mops.mul a.den b.num)

def fPow (ops : UfdOps R) (m : Nat) (a : Frac R m) : Nat → Frac R m
  | 0 => fracOfPoly ops m (mOps ops m).one
  | k + 1 => fMul ops m a (fPow ops m a k)

def fracRops (ops : UfdOps R) (m : Nat) : RingOps (Frac R m) :=
  ⟨fZero ops m, fAdd ops m, fMul ops m⟩

def ringOfUfd {A : Type} (uops : UfdOps A) : RingOps A :=
  ⟨uops.zero, uops.add, uops.mul⟩

/-- Substitute polynomials for variables inside a polynomial (the subs
calls of _compute_laurent). -/
def substPolyM (ops : UfdOps R) (m : Nat) (p : MPoly R m) (σ : Nat → MPoly R m) :
    MPoly R m :=
  evalM (ringOfUfd (mOps ops m)) (constM ops m) m p σ

/-- Substitute rational functions for variables inside a polynomial (the
subs calls of mutate). -/
def substFracM (ops : UfdOps R) (m : Nat) (p : MPoly R m) (σ : Nat → Frac R m) :
    Frac R m :=
  evalM (fracRops ops m) (fun c => fracOfPoly ops m (constM ops m c)) m p σ

end FracLayer

section SeedLayer

variable {R : Type} [DecidableEq R]

/-- The exceptions the source raises: LP1/LP2 validation errors carrying
the offending slot (and, for the divisibility rule, the variable named in
the message), the IndexError of an out-of-range mutation index, Sage's
ZeroDivisionError and ArithmeticError, and the ValueError for an unknown
traversal algorithm. -/
inductive Err where
  | lp1Fail (i : Nat)
  | lp2NotIrreducible (i : Nat)
  | lp2Divides (varIdx polyIdx : Nat)
  | indexError
  | zeroDivision
  | arithmeticError
  | unsupportedAlgorithm (s : String)
deriving DecidableEq

/-- The LpaSeed state: rank (the number of names), the exchange
polynomials, the cluster variables, the derived exchange Laurent
polynomials and the mutation log.  The ambient ring with its m generators
(names first, then coefficient labels) and the base ring are the immutable
shared objects of the source and appear as the type parameters. -/
structure Seed (R : Type) (m : Nat) where
  rank : Nat
  exchangePolys : List (MPoly R m)
  clusterVars : List (Frac R m)
  laurentPolys : List (Frac R m)
  mutationSeq : List Nat

instance instDecEqSeed (R : Type) [DecidableEq R] (m : Nat) : DecidableEq (Seed R m) :=
  fun a b =>
    letI := instDecEqMPoly R m
    if h : a.rank = b.rank ∧ a.exchangePolys = b.exchangePolys ∧
        a.clusterVars = b.clusterVars ∧ a.laurentPolys = b.laurentPolys ∧
        a.mutationSeq = b.mutationSeq then
      isTrue (by cases a; cases b; simp_all)
    else
      isFalse (by cases a; cases b; simp_all)

/-- Does d divide f, for elements of a ring carrying engine operations? -/
def dividesU {A : Type} (uops : UfdOps A) (d f : A) : Bool :=
  (uops.divOpt f d).isSome

def powU {A : Type} (uops : UfdOps A) (a : A) : Nat → A
  | 0 => uops.one
  | k + 1 => uops.mul a (powU uops a k)

/-- The counter loop of _compute_laurent: the maximal k such that f^k
divides s, found by testing successive powers; fuel bounds the search (the
source's while loop does not terminate when f is a unit or s is zero,
states the LP2 invariant excludes). -/
def maxPowGo {A : Type} (uops : UfdOps A) (s f : A) : Nat → Nat → Nat
  | 0, c => c
  | fuel + 1, c =>
    if dividesU uops (powU uops f (c + 1)) s then maxPowGo uops s f fuel (c + 1) else c

def maxPowM (ops : UfdOps R) (m : Nat) (s f : MPoly R m) : Nat :=
  maxPowGo (mOps ops m) s f ((mOps ops m).sizeB s + 1) 0

/-- _compute_laurent: for each slot i the Laurent polynomial starts as the
exchange polynomial and, for every other slot j, is divided by names[j]
raised to the maximal power k with exchange_polys[j]^k dividing the result
of substituting exchange_polys[j] for names[j] in exchange_polys[i]. -/
def computeLaurent (ops : UfdOps R) (m : Nat) (rank : Nat)
    (exchangePolys : List (MPoly R m)) : List (Frac R m) :=
  let mops := mOps ops m
  (List.range rank).map (fun i =>
    let current := exchangePolys.getD i mops.zero
    (List.range rank).foldl
      (fun lp j =>
        if j = i then lp
        else
          let fj := exchangePolys.getD j mops.zero
          let subPoly :=
            substPolyM ops m current (fun k => if k = j then fj else varM ops m k)
          let counter := maxPowM ops m subPoly fj
          fDiv ops m lp (fPow ops m (fVar ops m j) counter))
      (fracOfPoly ops m current))

/-- The CANCELLATION step of mutate: the source factors G into irreducibles
and keeps, with multiplicity, exactly the factors whose gcd with h is 1;
the product of the kept factors is obtained here by repeatedly dividing G
by gcd(G, h) until that gcd is a unit, which by unique factorization yields
the same polynomial, and the final unit normalization mirrors the engine's
factor returning unit-normalized irreducible factors (so the discarded
overall unit of the factorization is dropped exactly as the source's
product-of-factors H drops it). -/
def coprimePartGo {A : Type} (uops : UfdOps A) : Nat → A → A → A
  | 0, g, _ => g
  | fuel + 1, g, h =>
    let d := uops.gcd g h
    if uops.isUnit d then g
    else coprimePartGo uops fuel ((uops.divOpt g d).getD g) h

def coprimePart {A : Type} (uops : UfdOps A) (g h : A) : A :=
  let r := coprimePartGo uops (uops.sizeB g + 1) g h
  (uops.divOpt r (uops.normUnit r)).getD r

/-- List map with index through Except, propagating the first error. -/
def mapIdxExcept {α ε : Type} (f : Nat → α → Except ε α) : Nat → List α → Except ε (List α)
  | _, [] => .ok []
  | k, a :: t =>
    match f k a with
    | .error e => .error e
    | .ok b =>
      match mapIdxExcept f (k + 1) t with
      | .error e => .error e
      | .ok t' => .ok (b :: t')

/-- The exchange-polynomial update of mutate at index i, applied to slot j
holding polynomial p: slots with j = i, or in which names[i] does not
occur, are untouched; otherwise SUBSTITUTION builds h (laurent_polys[i]
with names[j] set to 0, raising ZeroDivisionError if its denominator
vanishes) and G (the numerator of p with names[i] replaced by h/names[i]),
CANCELLATION removes the factors of G sharing a factor with h's numerator,
and NORMALISATION stores the resulting polynomial. -/
def exchangeUpdate (ops : UfdOps R) (m : Nat) (laurentI : Frac R m) (i : Nat)
    (j : Nat) (p : MPoly R m) : Except Err (MPoly R m) :=
  let mops := mOps ops m
  if j ≠ i ∧ hasVarM m p i then
    let hnum := substZeroM ops m laurentI.num j
    let hden := substZeroM ops m laurentI.den j
    if hden = mops.zero then .error .zeroDivision
    else
      let h : Frac R m := mkFrac ops m hnum hden
      let hOverXi := fDiv ops m h (fVar ops m i)
      let G := substFracM ops m p (fun k => if k = i then hOverXi else fVar ops m k)
      if G.num = mops.zero then .error .arithmeticError
      else .ok (coprimePart mops G.num h.num)
  else .ok p

/-- The cluster-variable update of mutate at index i: substitute the
current cluster variables for the names inside laurent_polys[i]
(coefficient labels stay symbolic) and divide by cluster_vars[i]; Sage
raises ZeroDivisionError when the substituted denominator, or the cluster
variable divided by, is zero. -/
def clusterNewVar (ops : UfdOps R) (m : Nat) (S : Seed R m) (i : Nat) :
    Except Err (Frac R m) :=
  let mops := mOps ops m
  let laurentI := S.laurentPolys.getD i (fZero ops m)
  let σ : Nat → Frac R m := fun k =>
    if k < S.rank then S.clusterVars.getD k (fZero ops m) else fVar ops m k
  let En := substFracM ops m laurentI.num σ
  let Ed := substFracM ops m laurentI.den σ
  if Ed.num = mops.zero then .error .zeroDivision
  else
    let E := fDiv ops m En Ed
    let xi := S.clusterVars.getD i (fZero ops m)
    if xi.num = mops.zero then .error .zeroDivision
    else .ok (fDiv ops m E xi)

/-- mutate at a single index (the integer branch of mutate; the inplace
flag only chooses between updating the caller's handle and returning a
fresh object, so the transform embeds as one pure function): update the
cluster variable at i from the substituted Laurent polynomial, update the
exchange polynomials, append i to the mutation sequence, and recompute all
Laurent polynomials.  An out-of-range index raises IndexError. -/
def mutateAt (ops : UfdOps R) (m : Nat) (S : Seed R m) (i : Nat) :
    Except Err (Seed R m) :=
  if i < S.rank then
    match clusterNewVar ops m S i with
    | .error e => .error e
    | .ok newVar =>
      match mapIdxExcept
          (exchangeUpdate ops m (S.laurentPolys.getD i (fZero ops m)) i) 0
          S.exchangePolys with
      | .error e => .error e
      | .ok polys' =>
        .ok { rank := S.rank
              exchangePolys := polys'
              clusterVars := S.clusterVars.set i newVar
              laurentPolys := computeLaurent ops m S.rank polys'
              mutationSeq := S.mutationSeq ++ [i] }
  else .error .indexError

/-- The unit test of is_equivalent: the ratio x/y, taken in the fraction
field (hence reduced), has both numerator and denominator a unit of the
polynomial ring. -/
def unitRatio (ops : UfdOps R) (m : Nat) (x y : Frac R m) : Bool :=
  let mops := mOps ops m
  let t := fDiv ops m x y
  mops.isUnit t.num && mops.isUnit t.den

/-- is_equivalent: seeds of unequal rank are not equivalent; otherwise the
double loop appends j to L for every pair (i, j) whose cluster-variable
ratio passes the unit test, and the seeds are equivalent when L has
exactly rank entries. -/
def isEquivalent (ops : UfdOps R) (m : Nat) (S T : Seed R m) : Bool :=
  if S.rank ≠ T.rank then false
  else
    let n := S.rank
    ((List.range n).foldl
      (fun L i =>
        (List.range n).foldl
          (fun L j =>
            if unitRatio ops m (T.clusterVars.getD j (fZero ops m))
                (S.clusterVars.getD i (fZero ops m))
            then L ++ [j] else L)
          L)
      ([] : List Nat)).length = n

/-- is_mutation_equivalent's loop body: mutate a copy of the seed at each
index in turn and compare with Python equality (is_equivalent), returning
at the first success; exceptions from mutate propagate. -/
def isMutationEquivalentGo (ops : UfdOps R) (m : Nat) (S T : Seed R m) :
    List Nat → Except Err Bool
  | [] => .ok false
  | i :: rest =>
    match mutateAt ops m S i with
    | .error e => .error e
    | .ok M =>
      if isEquivalent ops m M T then .ok true
      else isMutationEquivalentGo ops m S T rest

def isMutationEquivalent (ops : UfdOps R) (m : Nat) (S T : Seed R m) :
    Except Err Bool :=
  isMutationEquivalentGo ops m S T (List.range S.rank)

/-- Number of irreducible factors of a polynomial as the length of the
external engine's factor(f) list (one entry per distinct irreducible
factor).  Factorization lives in the external Sage algebra engine, outside
this repository, so it enters the model as an oracle parameter; theorems
that depend on it carry the oracle's values on the concrete polynomials
involved as hypotheses. -/
structure FactorOracle (R : Type) (m : Nat) where
  numFactors : MPoly R m → Nat

/-- The LP1 loop of _check_seed: no exchange polynomial may depend on its
own name. -/
def checkLP1 (ops : UfdOps R) (m : Nat) (polys : List (MPoly R m)) :
    List Nat → Except Err Unit
  | [] => .ok ()
  | i :: rest =>
    if hasVarM m (polys.getD i (mOps ops m).zero) i then .error (.lp1Fail i)
    else checkLP1 ops m polys rest

/-- The LP2 divisibility loop of _check_seed for one exchange polynomial:
the source iterates var over all names but divides f by
self._names[i], where i is the loop variable left over from the LP1 loop
(always rank - 1); var only appears in the error message.  The embedding
reproduces exactly this: every iteration tests divisibility by the last
name. -/
def checkLP2Div (ops : UfdOps R) (m : Nat) (rank : Nat) (f : MPoly R m)
    (fIdx : Nat) : List Nat → Except Err Unit
  | [] => .ok ()
  | v :: rest =>
    if dividesU (mOps ops m) (varM ops m (rank - 1)) f then
      .error (.lp2Divides v fIdx)
    else checkLP2Div ops m rank f fIdx rest

/-- The LP2 loop of _check_seed: each exchange polynomial must factor into
a single irreducible (and not be a unit), and then passes the divisibility
loop. -/
def checkLP2 (ops : UfdOps R) (m : Nat) (oracle : FactorOracle R m) (rank : Nat)
    (polys : List (MPoly R m)) : List Nat → Except Err Unit
  | [] => .ok ()
  | fi :: rest =>
    if oracle.numFactors (polys.getD fi (mOps ops m).zero) > 1 ||
        (mOps ops m).isUnit (polys.getD fi (mOps ops m).zero) then
      .error (.lp2NotIrreducible fi)
    else
      match checkLP2Div ops m rank (polys.getD fi (mOps ops m).zero) fi
          (List.range rank) with
      | .error e => .error e
      | .ok () => checkLP2 ops m oracle rank polys rest

/-- Seed construction from exchange polynomials (the dict branch of the
constructor): the ambient ring has m generators, the first rank of which
are the names (the spec's opaque index handles for the cluster-variable
labels), the rest the coefficient labels.  Runs _check_seed, initialises
the cluster variables to the names, clears the mutation sequence and
computes the Laurent polynomials; no seed is produced on a check failure. -/
def initSeed (ops : UfdOps R) (m : Nat) (oracle : FactorOracle R m) (rank : Nat)
    (polys : List (MPoly R m)) : Except Err (Seed R m) :=
  match checkLP1 ops m polys (List.range rank) with
  | .error e => .error e
  | .ok () =>
    match checkLP2 ops m oracle rank polys (List.range rank) with
    | .error e => .error e
    | .ok () =>
      .ok { rank := rank
            exchangePolys := polys
            clusterVars := (List.range rank).map (fVar ops m)
            laurentPolys := computeLaurent ops m rank polys
            mutationSeq := [] }

/-- frozenset(self.cluster()), the object __hash__ hashes: the Python hash
of a seed is a function of this frozenset (equal frozensets guarantee
equal hashes, and that is the only collision the code arranges), so the
frozenset of cluster variables is the faithful model of the hash input. -/
def clusterSet (m : Nat) (S : Seed R m) : Finset (Frac R m) :=
  letI := instDecEqMPoly R m
  S.clusterVars.toFinset

end SeedLayer

section Explorer

variable {R : Type} [DecidableEq R]

/-- The index list a traversal expands: every index except the one last
applied to reach the seed (read off the raw mutation sequence). -/
def expandIndices (m : Nat) (seed : Seed R m) : List Nat :=
  (List.range seed.rank).filter (fun i => seed.mutationSeq.getLast? ≠ some i)

/-- Expand one seed: mutate at each index of the list, and whenever the
result is not already in the found list (Python's membership test on
seeds_found, which runs is_equivalent), append it to both the found list
and the new-seed list; a mutate exception aborts the traversal. -/
def expandGo (ops : UfdOps R) (m : Nat) (seed : Seed R m) :
    List Nat → List (Seed R m) → List (Seed R m) →
    List (Seed R m) × List (Seed R m) × Option Err
  | [], found, news => (found, news, none)
  | i :: rest, found, news =>
    match mutateAt ops m seed i with
    | .error e => (found, news, some e)
    | .ok s2 =>
      if found.any (fun t => isEquivalent ops m t s2) then
        expandGo ops m seed rest found news
      else expandGo ops m seed rest (found ++ [s2]) (news ++ [s2])

/-- One BFS level: expand every frontier seed in order, accumulating the
found list and the next frontier. -/
def bfsLevel (ops : UfdOps R) (m : Nat) :
    List (Seed R m) → List (Seed R m) → List (Seed R m) →
    List (Seed R m) × List (Seed R m) × Option Err
  | [], found, news => (found, news, none)
  | seed :: frontier, found, news =>
    match expandGo ops m seed (expandIndices m seed) found news with
    | (found', news', some e) => (found', news', some e)
    | (found', news', none) => bfsLevel ops m frontier found' news'

/-- The BFS branch of mutation_class_iter at unbounded depth: expand whole
levels until one produces no new seeds (the source's while loop on
new_seeds_found).  The found list is exactly the sequence of yielded seeds,
the initial seed first; fuel bounds the number of levels, and a state whose
frontier is empty is a terminated run. -/
def bfsRun (ops : UfdOps R) (m : Nat) :
    List (Seed R m) → List (Seed R m) → Nat →
    List (Seed R m) × List (Seed R m) × Option Err
  | found, frontier, 0 => (found, frontier, none)
  | found, frontier, fuel + 1 =>
    if frontier.isEmpty then (found, [], none)
    else
      match bfsLevel ops m frontier found [] with
      | (found', news, some e) => (found', news, some e)
      | (found', news, none) => bfsRun ops m found' news fuel

/-- The DFS branch of mutation_class_iter at unbounded depth: pop the top
of the stack (the end of seeds_to_check), push its unseen one-step
mutations, repeat until the stack is empty.  At depth = infinity the
current_depth bookkeeping of the source only drives the optional progress
display, so the embedding is the plain stack loop; fuel bounds the number
of pops. -/
def dfsRun (ops : UfdOps R) (m : Nat) :
    List (Seed R m) → List (Seed R m) → Nat → List (Seed R m) × Option Err
  | found, _, 0 => (found, none)
  | found, stack, fuel + 1 =>
    match stack.getLast? with
    | none => (found, none)
    | some seed =>
      match expandGo ops m seed (expandIndices m seed) found [] with
      | (found', _, some e) => (found', some e)
      | (found', news, none) => dfsRun ops m found' (stack.dropLast ++ news) fuel

/-- The sequence of values mutation_class_iter produces (depth unbounded,
paths off) paired with the error, if any, that iterating it raises.  The
generator body yields the initial seed first and only then dispatches on
the algorithm name, so an unsupported name still produces the initial seed
and raises ValueError when the following element is requested. -/
def mutationClassIterTrace (ops : UfdOps R) (m : Nat) (S : Seed R m)
    (algorithm : String) (fuel : Nat) : List (Seed R m) × Option Err :=
  if algorithm = "BFS" then
    match bfsRun ops m [S] [S] fuel with
    | (found, _, e) => (found, e)
  else if algorithm = "DFS" then
    match dfsRun ops m [S] [S] fuel with
    | (found, e) => (found, e)
  else ([S], some (.unsupportedAlgorithm algorithm))

/-- mutation_class: the eager list of the iterator's output (BFS is the
default algorithm). -/
def mutationClassBFS (ops : UfdOps R) (m : Nat) (S : Seed R m) (fuel : Nat) :
    List (Seed R m) × List (Seed R m) × Option Err :=
  bfsRun ops m [S] [S] fuel

end Explorer

instance instDecEqExcept {ε α : Type} [DecidableEq ε] [DecidableEq α] :
    DecidableEq (Except ε α) := fun a b =>
  match a, b with
  | .ok x, .ok y =>
    if h : x = y then .isTrue (by rw [h]) else .isFalse (fun c => h (Except.ok.inj c))
  | .error x, .error y =>
    if h : x = y then .isTrue (by rw [h]) else .isFalse (fun c => h (Except.error.inj c))
  | .ok _, .error _ => .isFalse (fun c => Except.noConfusion c)
  | .error _, .ok _ => .isFalse (fun c => Except.noConfusion c)

def exIsOk {ε α : Type} : Except ε α → Bool
  | .ok _ => true
  | .error _ => false

section SpecSide

variable {R : Type} [DecidableEq R]

/-- Stated from the spec's words, for comparison with is_equivalent: the
total number of index pairs (i, j), i and j ranging over the rank, for
which the ratio cluster_vars_T[j] / cluster_vars_S[i] has both numerator
and denominator a unit of the base ring, counted with multiplicity and
with no bijection enforced. -/
def pairMatchCount (ops : UfdOps R) (m : Nat) (S T : Seed R m) : Nat :=
  ((List.range S.rank).flatMap (fun i => (List.range S.rank).map (fun j => (i, j)))).countP
    (fun ij =>
      unitRatio ops m (T.clusterVars.getD ij.2 (fZero ops m))
        (S.clusterVars.getD ij.1 (fZero ops m)))

end SpecSide

section ConcreteSeeds

/-- 1 + x2 over ZZ[x1, x2] (generator 0 is x1, generator 1 is x2). -/
def polyOnePlusX2 : MPoly Int 2 :=
  (mOps intOps 2).add (constM intOps 2 1) (varM intOps 2 1)

/-- 1 + x1 over ZZ[x1, x2]. -/
def polyOnePlusX1 : MPoly Int 2 :=
  (mOps intOps 2).add (constM intOps 2 1) (varM intOps 2 0)

/-- The cluster variable x1. -/
def varFx1 : Frac Int 2 := fVar intOps 2 0

/-- The cluster variable x2. -/
def varFx2 : Frac Int 2 := fVar intOps 2 1

/-- The cluster variable (x2 + 1) / x1. -/
def varFx2P1OverX1 : Frac Int 2 := ⟨polyOnePlusX2, varM intOps 2 0⟩

/-- The cluster variable (x1 + 1) / x2. -/
def varFx1P1OverX2 : Frac Int 2 := ⟨polyOnePlusX1, varM intOps 2 1⟩

/-- The cluster variable (x1 + x2 + 1) / (x1 * x2). -/
def varFSumOverProd : Frac Int 2 :=
  ⟨(mOps intOps 2).add polyOnePlusX1 (varM intOps 2 1),
   (mOps intOps 2).mul (varM intOps 2 0) (varM intOps 2 1)⟩

/-- The seed the constructor produces for the dict mapping x1 to 1 + x2 and
x2 to 1 + x1 over ZZ: cluster variables are the names, the mutation log is
empty, the Laurent polynomials are freshly computed. -/
def seedLin : Seed Int 2 :=
  { rank := 2
    exchangePolys := [polyOnePlusX2, polyOnePlusX1]
    clusterVars := [fVar intOps 2 0, fVar intOps 2 1]
    laurentPolys := computeLaurent intOps 2 2 [polyOnePlusX2, polyOnePlusX1]
    mutationSeq := [] }

/-- Writing a concrete integer polynomial in ZZ[x1, x2] as a plain
nested-list literal (definitionally the identity). -/
def pz (l : List (List Int)) : MPoly Int 2 := l

def fz (n d : List (List Int)) : Frac Int 2 := ⟨pz n, pz d⟩

def sz (rank : Nat) (ep : List (List (List Int))) (cv lp : List (Frac Int 2))
    (ms : List Nat) : Seed Int 2 := ⟨rank, ep.map pz, cv, lp, ms⟩

/-- The exchange polynomials 1 + x2 and 1 + x1, which every seed of the
linear rank-2 mutation class carries. -/
def epLin : List (List (List Int)) := [[[1, 1]], [[1], [1]]]

/-- The Laurent polynomials of every seed of the linear rank-2 class: the
exchange polynomials themselves (no variable divides any substitution). -/
def lpLin : List (Frac Int 2) := [fz [[1, 1]] [[1]], fz [[1], [1]] [[1]]]

/-- Class member with cluster (x1, x2): the initial seed. -/
def classLin0 : Seed Int 2 :=
  sz 2 epLin [fz [[], [1]] [[1]], fz [[0, 1]] [[1]]] lpLin []

/-- Class member with cluster ((x2 + 1) / x1, x2). -/
def classLin1 : Seed Int 2 :=
  sz 2 epLin [fz [[1, 1]] [[], [1]], fz [[0, 1]] [[1]]] lpLin [0]

/-- Class member with cluster (x1, (x1 + 1) / x2). -/
def classLin2 : Seed Int 2 :=
  sz 2 epLin [fz [[], [1]] [[1]], fz [[1], [1]] [[0, 1]]] lpLin [1]

/-- Class member with cluster ((x2 + 1) / x1, (x1 + x2 + 1) / (x1 * x2)). -/
def classLin3 : Seed Int 2 :=
  sz 2 epLin [fz [[1, 1]] [[], [1]], fz [[1, 1], [1]] [[], [0, 1]]] lpLin [0, 1]

/-- Class member with cluster ((x1 + x2 + 1) / (x1 * x2), (x1 + 1) / x2). -/
def classLin4 : Seed Int 2 :=
  sz 2 epLin [fz [[1, 1], [1]] [[], [0, 1]], fz [[1], [1]] [[0, 1]]] lpLin [1, 0]

/-- The full BFS mutation class of the linear rank-2 seed, in the order the
iterator yields it. -/
def classLinList : List (Seed Int 2) :=
  [classLin0, classLin1, classLin2, classLin3, classLin4]

/-- The deduplicated set of cluster variables over the mutation class of
seedLin (the variable class as a set). -/
def varClassLin : Finset (Frac Int 2) :=
  letI := instDecEqMPoly Int 2
  (classLinList.flatMap (fun s => s.clusterVars)).toFinset

/-- The exchange polynomial x1 itself, a polynomial divisible by the name
x1 (an LP2 violation the constructor is supposed to reject). -/
def polyX1 : MPoly Int 2 := varM intOps 2 0

/-- The seed the constructor actually produces for the dict mapping x1 to
1 + x2 and x2 to x1 over ZZ: the LP2 divisibility rule is violated at slot
1 (x1 divides x1), but the check only ever divides by the last name, x2,
so construction succeeds. -/
def seedDivBug : Seed Int 2 :=
  { rank := 2
    exchangePolys := [polyOnePlusX2, polyX1]
    clusterVars := [fVar intOps 2 0, fVar intOps 2 1]
    laurentPolys := computeLaurent intOps 2 2 [polyOnePlusX2, polyX1]
    mutationSeq := [] }

/-- 2 + x2 over QQ[x1, x2]. -/
def polyQTwoPlusX2 : MPoly Rat 2 :=
  (mOps ratOps 2).add (constM ratOps 2 2) (varM ratOps 2 1)

/-- 1 + x1 over QQ[x1, x2]. -/
def polyQOnePlusX1 : MPoly Rat 2 :=
  (mOps ratOps 2).add (constM ratOps 2 1) (varM ratOps 2 0)

/-- 4 + 2 * x2 over QQ[x1, x2], irreducible over QQ (the content 2 is a
unit) and twice polyQTwoPlusX2. -/
def polyQFourPlusTwoX2 : MPoly Rat 2 :=
  (mOps ratOps 2).add (constM ratOps 2 4) ((mOps ratOps 2).mul (constM ratOps 2 2) (varM ratOps 2 1))

/-- The constructor's output for the dict mapping x1 to 2 + x2 and x2 to
1 + x1 over QQ. -/
def seedQS0 : Seed Rat 2 :=
  { rank := 2
    exchangePolys := [polyQTwoPlusX2, polyQOnePlusX1]
    clusterVars := [fVar ratOps 2 0, fVar ratOps 2 1]
    laurentPolys := computeLaurent ratOps 2 2 [polyQTwoPlusX2, polyQOnePlusX1]
    mutationSeq := [] }

/-- The constructor's output for the dict mapping x1 to 4 + 2 * x2 and x2
to 1 + x1 over QQ. -/
def seedQT0 : Seed Rat 2 :=
  { rank := 2
    exchangePolys := [polyQFourPlusTwoX2, polyQOnePlusX1]
    clusterVars := [fVar ratOps 2 0, fVar ratOps 2 1]
    laurentPolys := computeLaurent ratOps 2 2 [polyQFourPlusTwoX2, polyQOnePlusX1]
    mutationSeq := [] }

/-- Writing a concrete rational polynomial in QQ[x1, x2] as a plain
nested-list literal (definitionally the identity). -/
def pqz (l : List (List Rat)) : MPoly Rat 2 := l

def fqz (n d : List (List Rat)) : Frac Rat 2 := ⟨pqz n, pqz d⟩

def sqz (rank : Nat) (ep : List (List (List Rat))) (cv lp : List (Frac Rat 2))
    (ms : List Nat) : Seed Rat 2 := ⟨rank, ep.map pqz, cv, lp, ms⟩

/-- seedQS0 mutated at index 0: cluster variables ((x2 + 2) / x1, x2),
exchange polynomials (x2 + 2, x1 + 2). -/
def seedQS1 : Seed Rat 2 :=
  sqz 2 [[[2, 1]], [[2], [1]]] [fqz [[2, 1]] [[], [1]], fqz [[0, 1]] [[1]]]
    [fqz [[2, 1]] [[1]], fqz [[2], [1]] [[1]]] [0]

/-- seedQT0 mutated at index 0: cluster variables ((2 * x2 + 4) / x1, x2),
exchange polynomials (2 * x2 + 4, x1 + 4). -/
def seedQT1 : Seed Rat 2 :=
  sqz 2 [[[4, 2]], [[4], [1]]] [fqz [[4, 2]] [[], [1]], fqz [[0, 1]] [[1]]]
    [fqz [[4, 2]] [[1]], fqz [[4], [1]] [[1]]] [0]

end ConcreteSeeds

/-! Helper lemmas. -/

section Lemmas

variable {R : Type} [DecidableEq R]

theorem foldl_append_flatMap {α : Type} (f : Nat → List α) (l : List Nat) (L0 : List α) :
    l.foldl (fun L i => L ++ f i) L0 = L0 ++ l.flatMap f := by
  induction l generalizing L0 with
  | nil => simp
  | cons a t ih => simp [ih, List.append_assoc]

theorem foldl_if_append (g : Nat → Bool) (l : List Nat) (L0 : List Nat) :
    l.foldl (fun L j => if g j then L ++ [j] else L) L0 = L0 ++ l.filter g := by
  induction l generalizing L0 with
  | nil => simp
  | cons a t ih =>
    by_cases h : g a <;> simp [h, ih, List.append_assoc]

theorem foldl_foldl_if_append (g : Nat → Nat → Bool) (li lj : List Nat) (L0 : List Nat) :
    li.foldl
      (fun L i => lj.foldl (fun L' j => if g i j then L' ++ [j] else L') L) L0 =
      L0 ++ li.flatMap (fun i => lj.filter (g i)) := by
  have he : (fun (L : List Nat) (i : Nat) =>
      lj.foldl (fun L' j => if g i j then L' ++ [j] else L') L) =
      (fun L i => L ++ lj.filter (g i)) := by
    funext L i
    exact foldl_if_append (g i) lj L
  rw [he, foldl_append_flatMap]

theorem countP_pair_flatMap (g : Nat → Nat → Bool) (li lj : List Nat) :
    ((li.flatMap (fun i => lj.map (fun j => (i, j)))).countP (fun ij => g ij.1 ij.2)) =
      (li.flatMap (fun i => lj.filter (g i))).length := by
  induction li with
  | nil => simp
  | cons a t ih =>
    simp only [List.flatMap_cons, List.countP_append, List.countP_map, ih,
      List.length_append]
    congr 1
    rw [List.countP_eq_length_filter]
    congr 1

theorem mapIdxExcept_get? {α ε : Type} (f : Nat → α → Except ε α) :
    ∀ (l l' : List α) (k : Nat), mapIdxExcept f k l = .ok l' →
      ∀ (j : Nat) (a : α), l.get? j = some a →
        ∃ b, l'.get? j = some b ∧ f (k + j) a = .ok b := by
  intro l
  induction l with
  | nil => intro l' k h j a ha; simp at ha
  | cons x t ih =>
    intro l' k h j a ha
    unfold mapIdxExcept at h
    cases hx : f k x with
    | error e => rw [hx] at h; exact Except.noConfusion h
    | ok b =>
      rw [hx] at h
      cases ht : mapIdxExcept f (k + 1) t with
      | error e => rw [ht] at h; exact Except.noConfusion h
      | ok t' =>
        rw [ht] at h
        cases h
        cases j with
        | zero =>
          simp at ha
          exact ⟨b, by simp, by rw [ha] at hx; simpa using hx⟩
        | succ j' =>
          simp only [List.get?_cons_succ] at ha ⊢
          have := ih t' (k + 1) ht j' a ha
          obtain ⟨b', hb1, hb2⟩ := this
          refine ⟨b', hb1, ?_⟩
          have harith : k + 1 + j' = k + (j' + 1) := by omega
          rw [harith] at hb2
          exact hb2

theorem bfsRun_done (ops : UfdOps R) (m : Nat) (found : List (Seed R m)) (k : Nat) :
    bfsRun ops m found [] k = (found, [], none) := by
  cases k <;> rfl

theorem bfsRun_add (ops : UfdOps R) (m : Nat) :
    ∀ (j k : Nat) (found frontier : List (Seed R m)),
      bfsRun ops m found frontier (j + k) =
        (match bfsRun ops m found frontier j with
         | (F, Fr, none) => bfsRun ops m F Fr k
         | (F, Fr, some e) => (F, Fr, some e)) := by
  intro j
  induction j with
  | zero =>
    intro k found frontier
    rw [Nat.zero_add]
    rfl
  | succ j ih =>
    intro k found frontier
    have harith : j + 1 + k = (j + k) + 1 := by omega
    rw [harith]
    show (if frontier.isEmpty then (found, [], none)
          else match bfsLevel ops m frontier found [] with
            | (found', news, some e) => (found', news, some e)
            | (found', news, none) => bfsRun ops m found' news (j + k)) = _
    by_cases hf : frontier.isEmpty
    · rw [if_pos hf]
      show _ = (match bfsRun ops m found frontier (j + 1) with
        | (F, Fr, none) => bfsRun ops m F Fr k
        | (F, Fr, some e) => (F, Fr, some e))
      have : bfsRun ops m found frontier (j + 1) = (found, [], none) := by
        show (if frontier.isEmpty then _ else _) = _
        rw [if_pos hf]
      rw [this]
      exact (bfsRun_done ops m found k).symm
    · rw [if_neg hf]
      have hstep : bfsRun ops m found frontier (j + 1) =
          (match bfsLevel ops m frontier found [] with
            | (found', news, some e) => (found', news, some e)
            | (found', news, none) => bfsRun ops m found' news j) := by
        show (if frontier.isEmpty then _ else _) = _
        rw [if_neg hf]
      rw [hstep]
      cases hl : bfsLevel ops m frontier found [] with
      | mk found' rest =>
        cases rest with
        | mk news err =>
          cases err with
          | none => exact ih k found' news
          | some e => rfl

theorem bfsRun_succ {R : Type} [DecidableEq R] (ops : UfdOps R) (m : Nat)
    (found frontier : List (Seed R m)) (fuel : Nat) :
    bfsRun ops m found frontier (fuel + 1) =
      (if frontier.isEmpty then (found, [], none)
       else
         match bfsLevel ops m frontier found [] with
         | (found', news, some e) => (found', news, some e)
         | (found', news, none) => bfsRun ops m found' news fuel) := rfl

/-- The constructor's seed for the linear rank-2 dict, with its computed
Laurent polynomials written out. -/
theorem seedLin_lit : seedLin = classLin0 := by decide!

/-- BFS level 1 on the linear rank-2 seed: expanding the initial seed at
both indices finds the two one-step mutations. -/
theorem bfsLevelLin1 : bfsLevel intOps 2 [classLin0] [classLin0] [] =
    ([classLin0, classLin1, classLin2], [classLin1, classLin2], none) := by decide!

/-- BFS level 2: expanding the two depth-1 seeds (each skipping its own
last index) finds the two depth-2 seeds. -/
theorem bfsLevelLin2 : bfsLevel intOps 2 [classLin1, classLin2]
    [classLin0, classLin1, classLin2] [] =
    (classLinList, [classLin3, classLin4], none) := by decide!

/-- BFS level 3: expanding the two depth-2 seeds finds nothing new, so the
next frontier is empty and the traversal stops. -/
theorem bfsLevelLin3 : bfsLevel intOps 2 [classLin3, classLin4] classLinList [] =
    (classLinList, [], none) := by decide!

/-- The full BFS run on the linear rank-2 seed assembled from the three
level computations. -/
theorem bfsRunLin :
    bfsRun intOps 2 [classLin0] [classLin0] 4 = (classLinList, [], none) := by
  show bfsRun intOps 2 [classLin0] [classLin0] (3 + 1) = _
  rw [bfsRun_succ, if_neg (by decide), bfsLevelLin1]
  show bfsRun intOps 2 [classLin0, classLin1, classLin2] [classLin1, classLin2] (2 + 1) = _
  rw [bfsRun_succ, if_neg (by decide), bfsLevelLin2]
  show bfsRun intOps 2 classLinList [classLin3, classLin4] (1 + 1) = _
  rw [bfsRun_succ, if_neg (by decide), bfsLevelLin3]
  show bfsRun intOps 2 classLinList [] 1 = _
  exact bfsRun_done intOps 2 classLinList 1

theorem checkLP2_ok {R : Type} [DecidableEq R] (ops : UfdOps R) (m : Nat)
    (oracle : FactorOracle R m) (rank : Nat) (polys : List (MPoly R m)) :
    ∀ (l : List Nat),
      (∀ fi ∈ l, oracle.numFactors (polys.getD fi (mOps ops m).zero) = 1) →
      (∀ fi ∈ l, (mOps ops m).isUnit (polys.getD fi (mOps ops m).zero) = false) →
      (∀ fi ∈ l,
        checkLP2Div ops m rank (polys.getD fi (mOps ops m).zero) fi
          (List.range rank) = .ok ()) →
      checkLP2 ops m oracle rank polys l = .ok () := by
  intro l
  induction l with
  | nil => intro _ _ _; rfl
  | cons a t ih =>
    intro hfac hirr hdiv
    unfold checkLP2
    rw [if_neg]
    · rw [hdiv a (List.mem_cons_self a t)]
      exact ih (fun fi h => hfac fi (List.mem_cons_of_mem a h))
        (fun fi h => hirr fi (List.mem_cons_of_mem a h))
        (fun fi h => hdiv fi (List.mem_cons_of_mem a h))
    · rw [hfac a (List.mem_cons_self a t), hirr a (List.mem_cons_self a t)]
      decide

theorem initSeed_eq {R : Type} [DecidableEq R] (ops : UfdOps R) (m : Nat)
    (oracle : FactorOracle R m) (rank : Nat) (polys : List (MPoly R m))
    (h1 : checkLP1 ops m polys (List.range rank) = .ok ())
    (h2 : checkLP2 ops m oracle rank polys (List.range rank) = .ok ()) :
    initSeed ops m oracle rank polys =
      .ok { rank := rank
            exchangePolys := polys
            clusterVars := (List.range rank).map (fVar ops m)
            laurentPolys := computeLaurent ops m rank polys
            mutationSeq := [] } := by
  unfold initSeed
  rw [h1, h2]

end Lemmas

/-! Claim theorems. -/

/-- C4: is_equivalent returns True exactly when the two seeds have equal
rank n and the total number of index pairs (i, j) for which the ratio
cluster_vars_T[j] / cluster_vars_S[i] has unit numerator and denominator is
exactly n, counted with multiplicity with no bijection enforced; seeds of
unequal rank are never equivalent. -/
theorem lpa_c4_equivalence_counting {R : Type} [DecidableEq R] (ops : UfdOps R)
    (m : Nat) (S T : Seed R m) :
    isEquivalent ops m S T = true ↔
      S.rank = T.rank ∧ pairMatchCount ops m S T = S.rank := by
  unfold isEquivalent pairMatchCount
  by_cases h : S.rank = T.rank
  · rw [if_neg (by simp [h])]
    rw [decide_eq_true_eq]
    rw [foldl_foldl_if_append
      (fun i j => unitRatio ops m (T.clusterVars.getD j (fZero ops m))
        (S.clusterVars.getD i (fZero ops m)))
      (List.range S.rank) (List.range S.rank) []]
    rw [countP_pair_flatMap
      (fun i j => unitRatio ops m (T.clusterVars.getD j (fZero ops m))
        (S.clusterVars.getD i (fZero ops m)))
      (List.range S.rank) (List.range S.rank)]
    simp [h]
  · rw [if_pos (by simpa using h)]
    simp [h]

/-- Witness for C4: the characterisation instantiated at the linear rank-2
seed compared with itself. -/
theorem lpa_c4_witness :
    isEquivalent intOps 2 seedLin seedLin = true ↔
      seedLin.rank = seedLin.rank ∧
        pairMatchCount intOps 2 seedLin seedLin = seedLin.rank :=
  lpa_c4_equivalence_counting intOps 2 seedLin seedLin

/-- C9: a successful mutate(S, i) leaves the rank unchanged (the names, the
coefficient labels and the base ring are the immutable type parameters of
the seed and cannot change), leaves every cluster variable at a position
other than i unchanged, and leaves every exchange polynomial unchanged at
every slot j other than i in which names[i] does not occur as a variable. -/
theorem lpa_c9_mutate_frame {R : Type} [DecidableEq R] (ops : UfdOps R) (m : Nat)
    (S : Seed R m) (i : Nat) (S' : Seed R m) (h : mutateAt ops m S i = .ok S') :
    S'.rank = S.rank ∧
    (∀ j, j ≠ i → S'.clusterVars.get? j = S.clusterVars.get? j) ∧
    (∀ j p, j ≠ i → S.exchangePolys.get? j = some p → hasVarM m p i = false →
      S'.exchangePolys.get? j = some p) := by
  unfold mutateAt at h
  by_cases hi : i < S.rank
  · rw [if_pos hi] at h
    cases hc : clusterNewVar ops m S i with
    | error e => rw [hc] at h; exact Except.noConfusion h
    | ok newVar =>
      rw [hc] at h
      cases hm : mapIdxExcept
          (exchangeUpdate ops m (S.laurentPolys.getD i (fZero ops m)) i) 0
          S.exchangePolys with
      | error e => rw [hm] at h; exact Except.noConfusion h
      | ok polys' =>
        rw [hm] at h
        cases h
        refine ⟨rfl, ?_, ?_⟩
        · intro j hj
          show (S.clusterVars.set i newVar).get? j = S.clusterVars.get? j
          rw [List.get?_eq_getElem?, List.get?_eq_getElem?,
            List.getElem?_set_ne (Ne.symm hj)]
        · intro j p hj hget hvar
          obtain ⟨b, hb1, hb2⟩ := mapIdxExcept_get? _ _ _ _ hm j p hget
          rw [Nat.zero_add] at hb2
          unfold exchangeUpdate at hb2
          rw [if_neg (by simp [hvar])] at hb2
          injection hb2 with hpb
          rw [← hpb] at hb1
          exact hb1
  · rw [if_neg hi] at h
    exact Except.noConfusion h

theorem isMutEqGo_iff {R : Type} [DecidableEq R] (ops : UfdOps R) (m : Nat)
    (S T : Seed R m) :
    ∀ (l : List Nat), (∀ k ∈ l, exIsOk (mutateAt ops m S k) = true) →
      (isMutationEquivalentGo ops m S T l = .ok true ↔
        ∃ k ∈ l,
          (mutateAt ops m S k).toOption.any (fun M => isEquivalent ops m M T) = true) := by
  intro l
  induction l with
  | nil => intro _; simp [isMutationEquivalentGo]
  | cons a t ih =>
    intro hok
    have ha := hok a (by simp)
    cases hma : mutateAt ops m S a with
    | error e => rw [hma] at ha; simp [exIsOk] at ha
    | ok M =>
      simp only [isMutationEquivalentGo, hma]
      by_cases he : isEquivalent ops m M T = true
      · rw [if_pos he]
        constructor
        · intro _
          refine ⟨a, by simp, ?_⟩
          rw [hma]
          exact he
        · intro _
          rfl
      · rw [if_neg he]
        rw [ih (fun k hk => hok k (List.mem_cons_of_mem a hk))]
        constructor
        · rintro ⟨k, hk, hval⟩
          exact ⟨k, List.mem_cons_of_mem a hk, hval⟩
        · rintro ⟨k, hk, hval⟩
          rcases List.mem_cons.mp hk with hk1 | hk2
          · subst hk1
            rw [hma] at hval
            exact absurd hval he
          · exact ⟨k, hk2, hval⟩

set_option maxHeartbeats 1600000 in
/-- C10: is_mutation_equivalent(S, T) returns True exactly when some single
one-index mutation of S is equivalent to T (when every single mutation of S
succeeds, as it does on valid seeds); it tests no zero-step or multi-step
paths, and in particular the rank-2 linear seed is not mutation-equivalent
to itself. -/
theorem lpa_c10_is_mutation_equivalent :
    (∀ (R : Type) [DecidableEq R] (ops : UfdOps R) (m : Nat) (S T : Seed R m),
      (∀ k, k < S.rank → exIsOk (mutateAt ops m S k) = true) →
      (isMutationEquivalent ops m S T = .ok true ↔
        ∃ k, k < S.rank ∧
          (mutateAt ops m S k).toOption.any (fun M => isEquivalent ops m M T) = true)) ∧
    isMutationEquivalent intOps 2 seedLin seedLin = .ok false := by
  constructor
  · intro R instR ops m S T hok
    unfold isMutationEquivalent
    rw [isMutEqGo_iff ops m S T (List.range S.rank)
      (fun k hk => hok k (List.mem_range.mp hk))]
    simp [List.mem_range]
  · decide!

set_option maxHeartbeats 1600000 in
/-- Witness for C10: the characterisation applied at the rank-2 linear
seed and its mutation at index 0 (every single mutation of the seed
succeeds there, and the mutated seed is reached by mutating at 0). -/
theorem lpa_c10_witness :
    isMutationEquivalent intOps 2 seedLin classLin1 = .ok true ∧
    isMutationEquivalent intOps 2 seedLin seedLin = .ok false := by
  constructor
  · rw [lpa_c10_is_mutation_equivalent.1 Int intOps 2 seedLin classLin1 (by decide!)]
    exact ⟨0, by decide, by decide!⟩
  · exact lpa_c10_is_mutation_equivalent.2

set_option maxHeartbeats 1600000 in
/-- C6 counterexample: calling mutation_class_iter with the unknown
algorithm name XFS still yields the initial seed before the
unsupported-option ValueError is raised: the produced prefix is the
one-element list holding the initial seed, not the empty list the claim
demands. -/
theorem lpa_c6_counterexample :
    mutationClassIterTrace intOps 2 seedLin "XFS" 3 =
      ([seedLin], some (Err.unsupportedAlgorithm "XFS")) ∧
    (mutationClassIterTrace intOps 2 seedLin "XFS" 3).1 ≠ [] := by
  exact ⟨by decide!, by decide!⟩

/-- C6 amended: with any algorithm name other than BFS and DFS, iterating
mutation_class_iter produces exactly the initial seed and then raises the
unsupported-option ValueError; no traversal work happens, but the depth-0
yield does precede the error. -/
theorem lpa_c6_amended {R : Type} [DecidableEq R] (ops : UfdOps R) (m : Nat)
    (S : Seed R m) (alg : String) (fuel : Nat)
    (h1 : alg ≠ "BFS") (h2 : alg ≠ "DFS") :
    mutationClassIterTrace ops m S alg fuel =
      ([S], some (.unsupportedAlgorithm alg)) := by
  unfold mutationClassIterTrace
  rw [if_neg h1, if_neg h2]

/-- Witness for the amended C6 at a concrete unknown algorithm name. -/
theorem lpa_c6_amended_witness :
    mutationClassIterTrace intOps 2 seedLin "IDDFS" 5 =
      ([seedLin], some (Err.unsupportedAlgorithm "IDDFS")) :=
  lpa_c6_amended intOps 2 seedLin "IDDFS" 5 (by decide) (by decide)

set_option maxHeartbeats 1600000 in
/-- C2: for the rank-2 seed built from the dict mapping x1 to 1 + x2 and x2
to 1 + x1 over the integers (any factorization oracle reporting both
polynomials irreducible), construction yields the expected seed; the BFS
mutation-class run at unbounded depth terminates (any fuel from four levels
up ends with an empty frontier and no error) with exactly 5 members; and
the variable class is exactly the set consisting of
(x1 + x2 + 1)/(x1 * x2), (x2 + 1)/x1, (x1 + 1)/x2, x1 and x2. -/
theorem lpa_c2_literal_scenario (oracle : FactorOracle Int 2)
    (h1 : oracle.numFactors polyOnePlusX2 = 1)
    (h2 : oracle.numFactors polyOnePlusX1 = 1) :
    initSeed intOps 2 oracle 2 [polyOnePlusX2, polyOnePlusX1] = .ok seedLin ∧
    (∀ k : Nat,
      bfsRun intOps 2 [seedLin] [seedLin] (4 + k) = (classLinList, [], none)) ∧
    classLinList.length = 5 ∧
    varClassLin = {varFSumOverProd, varFx2P1OverX1, varFx1P1OverX2, varFx1, varFx2} := by
  refine ⟨?_, ?_, by decide, by decide!⟩
  · have hLP1 : checkLP1 intOps 2 [polyOnePlusX2, polyOnePlusX1] (List.range 2) =
        .ok () := by decide!
    have hLP2 : checkLP2 intOps 2 oracle 2 [polyOnePlusX2, polyOnePlusX1]
        (List.range 2) = .ok () := by
      apply checkLP2_ok
      · intro fi hfi
        have hor : fi = 0 ∨ fi = 1 := by
          have := List.mem_range.mp hfi
          omega
        rcases hor with rfl | rfl
        · exact h1
        · exact h2
      · decide!
      · decide!
    rw [initSeed_eq intOps 2 oracle 2 [polyOnePlusX2, polyOnePlusX1] hLP1 hLP2]
    decide!
  · intro k
    rw [seedLin_lit, bfsRun_add intOps 2 4 k [classLin0] [classLin0], bfsRunLin]
    exact bfsRun_done intOps 2 classLinList k

set_option maxHeartbeats 1600000 in
/-- Witness for C2 at a concrete oracle reporting every polynomial
irreducible (truthfully so on the two polynomials the run factors). -/
theorem lpa_c2_witness :
    initSeed intOps 2 ⟨fun _ => 1⟩ 2 [polyOnePlusX2, polyOnePlusX1] = .ok seedLin ∧
    classLinList.length = 5 :=
  ⟨(lpa_c2_literal_scenario ⟨fun _ => 1⟩ rfl rfl).1,
   (lpa_c2_literal_scenario ⟨fun _ => 1⟩ rfl rfl).2.2.1⟩

set_option maxHeartbeats 1600000 in
/-- C3 (the code bug): the exchange polynomial of slot 1 is x1, which is
divisible by the name x1, so LP2 demands a validation failure; but
_check_seed's divisibility loop divides by self._names[i] with i the stale
loop variable of the LP1 loop (always the last name, x2), so the seed is
accepted and construction succeeds. -/
theorem lpa_c3_divisibility_check_bypassed (oracle : FactorOracle Int 2)
    (h1 : oracle.numFactors polyOnePlusX2 = 1)
    (h2 : oracle.numFactors polyX1 = 1) :
    dividesU (mOps intOps 2) (varM intOps 2 0) polyX1 = true ∧
    initSeed intOps 2 oracle 2 [polyOnePlusX2, polyX1] = .ok seedDivBug := by
  refine ⟨by decide, ?_⟩
  have hLP1 : checkLP1 intOps 2 [polyOnePlusX2, polyX1] (List.range 2) =
      .ok () := by decide!
  have hLP2 : checkLP2 intOps 2 oracle 2 [polyOnePlusX2, polyX1]
      (List.range 2) = .ok () := by
    apply checkLP2_ok
    · intro fi hfi
      have hor : fi = 0 ∨ fi = 1 := by
        have := List.mem_range.mp hfi
        omega
      rcases hor with rfl | rfl
      · exact h1
      · exact h2
    · decide!
    · decide!
  rw [initSeed_eq intOps 2 oracle 2 [polyOnePlusX2, polyX1] hLP1 hLP2]
  decide!

set_option maxHeartbeats 1600000 in
/-- Witness for C3 at a concrete oracle reporting every polynomial
irreducible (truthfully so on 1 + x2 and x1). -/
theorem lpa_c3_witness :
    dividesU (mOps intOps 2) (varM intOps 2 0) polyX1 = true ∧
    initSeed intOps 2 ⟨fun _ => 1⟩ 2 [polyOnePlusX2, polyX1] = .ok seedDivBug :=
  lpa_c3_divisibility_check_bypassed ⟨fun _ => 1⟩ rfl rfl

set_option maxHeartbeats 1600000 in
/-- C5 (the code bug): over QQ, where every nonzero rational is a unit, the
seeds from the dicts (x1 : 2 + x2, x2 : 1 + x1) and (x1 : 4 + 2 x2,
x2 : 1 + x1), each mutated at 0, are equivalent (their first cluster
variables differ by the unit 2), yet the frozensets of their cluster
variables, the objects __hash__ hashes, differ; so the hash is neither
invariant under unit multiples nor consistent with the overloaded
equality. -/
theorem lpa_c5_hash_not_equivalence_invariant (oracle : FactorOracle Rat 2)
    (h1 : oracle.numFactors polyQTwoPlusX2 = 1)
    (h2 : oracle.numFactors polyQOnePlusX1 = 1)
    (h3 : oracle.numFactors polyQFourPlusTwoX2 = 1) :
    initSeed ratOps 2 oracle 2 [polyQTwoPlusX2, polyQOnePlusX1] = .ok seedQS0 ∧
    initSeed ratOps 2 oracle 2 [polyQFourPlusTwoX2, polyQOnePlusX1] = .ok seedQT0 ∧
    mutateAt ratOps 2 seedQS0 0 = .ok seedQS1 ∧
    mutateAt ratOps 2 seedQT0 0 = .ok seedQT1 ∧
    isEquivalent ratOps 2 seedQS1 seedQT1 = true ∧
    clusterSet 2 seedQS1 ≠ clusterSet 2 seedQT1 := by
  refine ⟨?_, ?_, by decide!, by decide!, by decide!, by decide!⟩
  · have hLP1 : checkLP1 ratOps 2 [polyQTwoPlusX2, polyQOnePlusX1] (List.range 2) =
        .ok () := by decide!
    have hLP2 : checkLP2 ratOps 2 oracle 2 [polyQTwoPlusX2, polyQOnePlusX1]
        (List.range 2) = .ok () := by
      apply checkLP2_ok
      · intro fi hfi
        have hor : fi = 0 ∨ fi = 1 := by
          have := List.mem_range.mp hfi
          omega
        rcases hor with rfl | rfl
        · exact h1
        · exact h2
      · decide!
      · decide!
    rw [initSeed_eq ratOps 2 oracle 2 [polyQTwoPlusX2, polyQOnePlusX1] hLP1 hLP2]
    decide!
  · have hLP1 : checkLP1 ratOps 2 [polyQFourPlusTwoX2, polyQOnePlusX1]
        (List.range 2) = .ok () := by decide!
    have hLP2 : checkLP2 ratOps 2 oracle 2 [polyQFourPlusTwoX2, polyQOnePlusX1]
        (List.range 2) = .ok () := by
      apply checkLP2_ok
      · intro fi hfi
        have hor : fi = 0 ∨ fi = 1 := by
          have := List.mem_range.mp hfi
          omega
        rcases hor with rfl | rfl
        · exact h3
        · exact h2
      · decide!
      · decide!
    rw [initSeed_eq ratOps 2 oracle 2 [polyQFourPlusTwoX2, polyQOnePlusX1] hLP1 hLP2]
    decide!

set_option maxHeartbeats 1600000 in
/-- Witness for C5 at a concrete oracle reporting every polynomial
irreducible (truthfully so on the three polynomials the runs factor). -/
theorem lpa_c5_witness :
    isEquivalent ratOps 2 seedQS1 seedQT1 = true ∧
    clusterSet 2 seedQS1 ≠ clusterSet 2 seedQT1 :=
  ⟨(lpa_c5_hash_not_equivalence_invariant ⟨fun _ => 1⟩ rfl rfl rfl).2.2.2.2.1,
   (lpa_c5_hash_not_equivalence_invariant ⟨fun _ => 1⟩ rfl rfl rfl).2.2.2.2.2⟩

set_option maxHeartbeats 1600000 in
/-- Witness for C9: the frame conditions at the concrete mutation of the
linear rank-2 seed at index 0 (position 1 of the cluster and the
exchange-polynomial slot 1, in which x1 does occur, so only the cluster
clause is instantiated). -/
theorem lpa_c9_witness :
    classLin1.rank = seedLin.rank ∧
    classLin1.clusterVars.get? 1 = seedLin.clusterVars.get? 1 :=
  ⟨(lpa_c9_mutate_frame intOps 2 seedLin 0 classLin1 (by decide!)).1,
   (lpa_c9_mutate_frame intOps 2 seedLin 0 classLin1 (by decide!)).2.1 1 (by decide)⟩

end Lpa
